import Mathlib

/-!
# Simon game core — shallow embedding of `src/main.rs`

This file embeds the simulation core of the repository (a "Simon"-style
memory game written against the bevy engine) as executable Lean
definitions and proves the specified properties about them.

Modelling conventions:
* The four button identities, the button animation states, the pattern
  store, the score and the two game phases are translated directly from
  the Rust `enum`s / `struct`s.
* The per-system functions (`button_state_manager`, `update_pattern`,
  `show_button`, `validate_buttons`, `game_event_handler`,
  `update_score`, `state_switch_event_handler`) become pure functions on
  that data.  The `f32` countdown timers are modelled over `ℚ`.
* The engine's scheduling is modelled as a labelled step function on a
  `GameState` record: a `tick` label is one firing of the 1-second fixed
  timestep (which runs `show_button` during MonkeySee and
  `state_switch_event_handler` during MonkeyDo), and a `press b` label is
  one player click (clicks are only routed to the game during MonkeyDo).
  Random draws appear as explicit label / function parameters.
* The out-of-bounds indexing `pattern.0[progress.0]` in
  `validate_buttons` panics in Rust; the embedding returns `none` there
  and the step function records the panic in a `crashed` flag.
-/

namespace Simon

/-- Button identities (`enum Button` in src/main.rs). -/
inductive Button
  | Red
  | Green
  | Blue
  | Yellow
deriving DecidableEq, Fintype

/-- The `Distribution<Button> for Standard` impl (src/main.rs lines 31-40):
one draw of `rng.gen_range(0..=3)` is mapped to a `Button`; values 0, 1, 2
name Red, Green, Blue and the wildcard arm yields Yellow. -/
def sampleButton : Nat → Button
  | 0 => .Red
  | 1 => .Green
  | 2 => .Blue
  | _ => .Yellow

/-- Events for pressing and lighting up buttons (`enum ButtonEvent`). -/
inductive ButtonEvent
  | Pressed (b : Button)
  | Lit (b : Button)
deriving DecidableEq

/-- A button's animation state and countdown timer (`enum ButtonState`);
the `f32` timers are modelled over `ℚ`. -/
inductive ButtonState
  | Inactive
  | Pressed (timer : ℚ)
  | Lit (timer : ℚ)
deriving DecidableEq

/-- `button_event_handler` (src/main.rs lines 314-338) restricted to the
button named by the event: a press forces `Pressed { timer: 0.5 }`, a
light forces `Lit { timer: 0.8 }`, overwriting whatever was there. -/
def buttonEventHandler : ButtonEvent → ButtonState
  | .Pressed _ => .Pressed (1 / 2)
  | .Lit _ => .Lit (4 / 5)

/-- `button_state_manager` (src/main.rs lines 341-370) restricted to one
button, for one frame with delta `delta`: a state whose timer is still
strictly positive keeps its category and has the timer decreased by
`delta`; a `Pressed`/`Lit` state whose timer is already `≤ 0` becomes
`Inactive`; `Inactive` is untouched. -/
def buttonStateManager (delta : ℚ) : ButtonState → ButtonState
  | .Inactive => .Inactive
  | .Pressed timer => if 0 < timer then .Pressed (timer - delta) else .Inactive
  | .Lit timer => if 0 < timer then .Lit (timer - delta) else .Inactive

/-- Folding `buttonStateManager` over a list of frame deltas: the
cumulative effect of several engine frames on one button. -/
def tickAll (ds : List ℚ) (s : ButtonState) : ButtonState :=
  ds.foldl (fun st d => buttonStateManager d st) s

/-- The two game phases (`enum SimonState`): MonkeySee shows the pattern,
MonkeyDo waits for the player.  MonkeySee is the ShowPattern phase and
MonkeyDo the AwaitInput phase of the design document. -/
inductive SimonState
  | MonkeySee
  | MonkeyDo
deriving DecidableEq

/-- Game outcome events (`enum SimonEvent`): `Success` is the design's
`Complete`, `Next` its `Continue`, `Failure` its `Mistake`. -/
inductive SimonEvent
  | Success
  | Next
  | Failure
deriving DecidableEq

/-- The displayed score (`struct Score`). -/
structure Score where
  current : Nat
  high : Nat
deriving DecidableEq

/-- `update_score` (src/main.rs lines 494-507) for one `SimonEvent`:
on `Success` the current score is incremented and the high score raised
to it when overtaken; on `Failure` the current score is zeroed; `Next`
does not touch the score. -/
def update_score (ev : SimonEvent) (score : Score) : Score :=
  match ev with
  | .Success =>
      let c := score.current + 1
      { current := c, high := if score.high < c then c else score.high }
  | .Failure => { score with current := 0 }
  | .Next => score

/-- Folding `update_score` over a list of game events. -/
def runScore (s : Score) (evs : List SimonEvent) : Score :=
  evs.foldl (fun sc e => update_score e sc) s

/-- The largest value the `current` field takes while folding
`update_score` over `evs` from `s` (the starting value included). -/
def maxObserved (s : Score) : List SimonEvent → Nat
  | [] => s.current
  | e :: rest => max s.current (maxObserved (update_score e s) rest)

/-- `update_pattern` (src/main.rs lines 409-412), the enter system of
MonkeySee: pushes one (randomly drawn) button onto the pattern.  The
random draw is the explicit argument `b`. -/
def update_pattern (b : Button) (pattern : List Button) : List Button :=
  pattern ++ [b]

/-- `show_button` (src/main.rs lines 415-428): one fixed-timestep firing
during MonkeySee.  Returns the new progress cursor, the emitted `Lit`
event if any, and whether `NextState(MonkeyDo)` was requested.  When a
button is present at the cursor it is lit and the cursor advances;
otherwise the cursor is reset to 0 and the phase switch is requested. -/
def show_button (pattern : List Button) (progress : Nat) :
    Nat × Option ButtonEvent × Bool :=
  match pattern[progress]? with
  | some b => (progress + 1, some (.Lit b), false)
  | none => (0, none, true)

/-- `validate_buttons` (src/main.rs lines 442-461) for one `Pressed`
event: the pressed button is compared against `pattern.0[progress.0]`.
The Rust indexing panics when the cursor is out of bounds; the embedding
returns `none` there.  On a match the event is `Success` when the cursor
sits at the last index and `Next` otherwise; on a mismatch it is
`Failure`. -/
def validate_buttons (pattern : List Button) (progress : Nat) (button : Button) :
    Option SimonEvent :=
  match pattern[progress]? with
  | none => none
  | some expected =>
      if button = expected then
        if progress = pattern.length - 1 then some .Success else some .Next
      else some .Failure

/-- `game_event_handler` (src/main.rs lines 463-485) for one
`SimonEvent`: returns the new pattern, the new progress cursor and the
new value of the `StateSwitch` flag.  `Success` resets the cursor and
requests the switch; `Next` only increments the cursor; `Failure` resets
the cursor, empties the pattern and requests the switch. -/
def game_event_handler (ev : SimonEvent) (pattern : List Button)
    (progress : Nat) (stateSwitch : Bool) : List Button × Nat × Bool :=
  match ev with
  | .Success => (pattern, 0, true)
  | .Next => (pattern, progress + 1, stateSwitch)
  | .Failure => ([], 0, true)

/-- The whole mutable game state: the loopless state, the `Pattern`,
`Progress` and `Score` resources, whether the `StateSwitch` resource is
present, and whether the process has panicked. -/
structure GameState where
  phase : SimonState
  pattern : List Button
  progress : Nat
  score : Score
  stateSwitch : Bool
  crashed : Bool
deriving DecidableEq

/-- Entering MonkeySee runs its enter system `update_pattern`, appending
the freshly drawn button `b`. -/
def enterMonkeySee (b : Button) (s : GameState) : GameState :=
  { s with phase := .MonkeySee, pattern := update_pattern b s.pattern }

/-- One step of the engine, labelled by what fired.  `tick b` is one
firing of the 1-second fixed timestep, carrying the random draw `b` used
if MonkeySee is (re-)entered; `press b` is one player click on button
`b`. -/
inductive Label
  | tick (b : Button)
  | press (b : Button)
deriving DecidableEq

/-- The step function.  During MonkeySee a tick runs `show_button` and
clicks are ignored (`press_buttons` only runs in MonkeyDo).  During
MonkeyDo a tick runs `state_switch_event_handler` (src/main.rs lines
487-492), which re-enters MonkeySee when the `StateSwitch` resource is
present, and a click runs `validate_buttons` followed by
`game_event_handler` and `update_score` on the emitted event; the
out-of-bounds panic sets `crashed`.  A crashed state no longer steps. -/
def step (s : GameState) (l : Label) : GameState :=
  if s.crashed then s
  else
    match l with
    | .tick b =>
        match s.phase with
        | .MonkeySee =>
            let r := show_button s.pattern s.progress
            if r.2.2 then { s with progress := r.1, phase := .MonkeyDo }
            else { s with progress := r.1 }
        | .MonkeyDo =>
            if s.stateSwitch then enterMonkeySee b { s with stateSwitch := false }
            else s
    | .press b =>
        match s.phase with
        | .MonkeySee => s
        | .MonkeyDo =>
            match validate_buttons s.pattern s.progress b with
            | none => { s with crashed := true }
            | some ev =>
                let r := game_event_handler ev s.pattern s.progress s.stateSwitch
                { s with
                  pattern := r.1
                  progress := r.2.1
                  stateSwitch := r.2.2
                  score := update_score ev s.score }

/-- The resources as initialised by `main`: empty pattern, zero cursor,
zeroed score, initial loopless state MonkeySee, before its enter system
has run. -/
def startState : GameState :=
  { phase := .MonkeySee
    pattern := []
    progress := 0
    score := { current := 0, high := 0 }
    stateSwitch := false
    crashed := false }

/-- The state after startup: the transition stage runs the enter systems
of the initial state MonkeySee on its first execution, so one random
button `b` is appended before anything else happens. -/
def init (b : Button) : GameState :=
  enterMonkeySee b startState

/-- Running a list of labelled steps. -/
def run (s : GameState) : List Label → GameState
  | [] => s
  | l :: ls => run (step s l) ls

/-- A state is reachable when some initial random draw and some sequence
of ticks and clicks produces it. -/
def Reachable (s : GameState) : Prop :=
  ∃ (b : Button) (ls : List Label), run (init b) ls = s

/-- Modelled from the spec: the spec's `PatternStore.advance()` is absent
from the source as a named operation (the source increments `Progress`
inline in `game_event_handler`); per the spec's words it increments
Progress by 1 and fails with `OutOfRange` if Progress would exceed the
pattern length.  `none` stands for the `OutOfRange` failure. -/
def advance_spec (progress len : Nat) : Option Nat :=
  if len < progress + 1 then none else some (progress + 1)

/-! ## Helper lemmas about the button timers -/

lemma tickAll_nil (s : ButtonState) : tickAll [] s = s := rfl

lemma tickAll_cons (d : ℚ) (ds : List ℚ) (s : ButtonState) :
    tickAll (d :: ds) s = tickAll ds (buttonStateManager d s) := rfl

lemma tickAll_inactive (ds : List ℚ) : tickAll ds .Inactive = .Inactive := by
  induction ds with
  | nil => rfl
  | cons d ds ih => rw [tickAll_cons]; exact ih

lemma tickAll_pressed_total (ds : List ℚ) :
    ∀ t : ℚ, tickAll ds (.Pressed t) = .Pressed (t - ds.sum) ∨
      tickAll ds (.Pressed t) = .Inactive := by
  induction ds with
  | nil => intro t; left; simp [tickAll]
  | cons d ds ih =>
      intro t
      rw [tickAll_cons]
      by_cases h : 0 < t
      · simp only [buttonStateManager, if_pos h]
        rcases ih (t - d) with h' | h'
        · left; rw [h', List.sum_cons]; ring_nf
        · right; exact h'
      · simp only [buttonStateManager, if_neg h]
        right; exact tickAll_inactive ds

lemma tickAll_pressed_of_lt (ds : List ℚ) :
    ∀ t : ℚ, 0 < t → (∀ d ∈ ds, 0 ≤ d) → ds.sum < t →
      tickAll ds (.Pressed t) = .Pressed (t - ds.sum) := by
  induction ds with
  | nil => intro t _ _ _; simp [tickAll]
  | cons d ds ih =>
      intro t ht hnn hsum
      have hd : 0 ≤ d := hnn d (List.mem_cons_self d ds)
      have hds : 0 ≤ ds.sum :=
        List.sum_nonneg (fun x hx => hnn x (List.mem_cons_of_mem d hx))
      rw [List.sum_cons] at hsum
      rw [tickAll_cons]
      simp only [buttonStateManager, if_pos ht]
      have h1 : 0 < t - d := by linarith
      have h2 : ds.sum < t - d := by linarith
      rw [ih (t - d) h1 (fun x hx => hnn x (List.mem_cons_of_mem d hx)) h2]
      rw [List.sum_cons]; ring_nf

/-! ## Helper lemmas about the score -/

lemma update_score_keeps_le (ev : SimonEvent) (s : Score)
    (h : s.current ≤ s.high) :
    (update_score ev s).current ≤ (update_score ev s).high := by
  cases ev <;> simp only [update_score] <;> first
    | (split <;> omega)
    | omega

lemma update_score_high_eq (ev : SimonEvent) (s : Score)
    (h : s.current ≤ s.high) :
    (update_score ev s).high = max s.high (update_score ev s).current := by
  cases ev <;> simp only [update_score] <;> first
    | (split <;> omega)
    | omega

lemma update_score_high_mono (ev : SimonEvent) (s : Score) :
    s.high ≤ (update_score ev s).high := by
  cases ev <;> simp only [update_score] <;> first
    | (split <;> omega)
    | omega

lemma maxObserved_ge (s : Score) (evs : List SimonEvent) :
    s.current ≤ maxObserved s evs := by
  cases evs <;> simp [maxObserved]

lemma runScore_high (evs : List SimonEvent) :
    ∀ s : Score, s.current ≤ s.high →
      (runScore s evs).high = max s.high (maxObserved s evs) := by
  induction evs with
  | nil => intro s h; simp only [runScore, List.foldl_nil, maxObserved]; omega
  | cons e rest ih =>
      intro s h
      have hstep : runScore s (e :: rest) = runScore (update_score e s) rest := by
        simp [runScore]
      rw [hstep, ih (update_score e s) (update_score_keeps_le e s h)]
      have h1 := update_score_high_eq e s h
      have h2 := maxObserved_ge (update_score e s) rest
      simp only [maxObserved]
      omega

/-! ## Claims about the button animation timers -/

/-- C2 (amended): a tick is a no-op on `Inactive`; on a `Pressed` or
`Lit` button whose remaining time is still positive it keeps the
category and decreases the remaining time exactly by the elapsed delta;
on a `Pressed` or `Lit` button whose remaining time is already ≤ 0 it
transitions to `Inactive` — so the transition happens on the first tick
at which the timer is already exhausted, one tick after the timer
crosses 0, not on the tick whose elapsed time makes it cross.
Consequently a button put into `Pressed{remaining = 0.5}` and ticked
with nonnegative deltas of cumulative sum < 0.5 remains `Pressed` with
remaining reduced exactly by the cumulative elapsed, and once the
cumulative sum reaches ≥ 0.5 any single further tick yields
`Inactive`. -/
theorem C2_button_timer :
    (∀ d : ℚ, buttonStateManager d .Inactive = .Inactive) ∧
    (∀ d t : ℚ, 0 < t →
        buttonStateManager d (.Pressed t) = .Pressed (t - d) ∧
        buttonStateManager d (.Lit t) = .Lit (t - d)) ∧
    (∀ d t : ℚ, t ≤ 0 →
        buttonStateManager d (.Pressed t) = .Inactive ∧
        buttonStateManager d (.Lit t) = .Inactive) ∧
    (∀ ds : List ℚ, (∀ d ∈ ds, 0 ≤ d) → ds.sum < 1 / 2 →
        tickAll ds (buttonEventHandler (.Pressed .Red)) =
          .Pressed (1 / 2 - ds.sum)) ∧
    (∀ ds : List ℚ, 1 / 2 ≤ ds.sum → ∀ d : ℚ,
        buttonStateManager d (tickAll ds (buttonEventHandler (.Pressed .Red))) =
          .Inactive) := by
  have hbe : buttonEventHandler (.Pressed .Red) = ButtonState.Pressed (1 / 2) := rfl
  refine ⟨fun d => rfl, ?_, ?_, ?_, ?_⟩
  · intro d t ht
    constructor <;> simp [buttonStateManager, ht]
  · intro d t ht
    have hnlt : ¬ 0 < t := not_lt.mpr ht
    constructor <;> simp [buttonStateManager, hnlt]
  · intro ds hnn hsum
    rw [hbe]
    exact tickAll_pressed_of_lt ds (1 / 2) (by norm_num) hnn hsum
  · intro ds hsum d
    rw [hbe]
    rcases tickAll_pressed_total ds (1 / 2) with h | h
    · rw [h]
      have hnlt : ¬ 0 < (1 : ℚ) / 2 - ds.sum := by
        rw [not_lt]
        linarith
      simp only [buttonStateManager, if_neg hnlt]
    · rw [h]
      rfl

/-- C2 counterexample: a button animator put into `Pressed{remaining =
0.5}` (as `button_event_handler` does on a press) and ticked once with
elapsed 0.5 — cumulative elapsed ≥ 0.5 — is still `Pressed` (with
remaining 0), not `Inactive`: `button_state_manager` only transitions to
`Inactive` on the tick after the timer is exhausted. -/
theorem C2_counterexample :
    (1 : ℚ) / 2 ≤ [(1 : ℚ) / 2].sum ∧
    tickAll [(1 : ℚ) / 2] (buttonEventHandler (.Pressed .Red)) = .Pressed 0 ∧
    tickAll [(1 : ℚ) / 2] (buttonEventHandler (.Pressed .Red)) ≠ .Inactive := by
  have h2 : tickAll [(1 : ℚ) / 2] (buttonEventHandler (.Pressed .Red)) =
      .Pressed 0 := by
    norm_num [tickAll, buttonStateManager, buttonEventHandler]
  refine ⟨by norm_num, h2, ?_⟩
  rw [h2]
  decide

/-- C2 witness: two ticks of 0.2 s on a freshly pressed button leave it
`Pressed` with remaining reduced exactly by the cumulative elapsed. -/
theorem C2_witness :
    tickAll [(1 : ℚ) / 5, 1 / 5] (buttonEventHandler (.Pressed .Red)) =
      .Pressed (1 / 2 - [(1 : ℚ) / 5, 1 / 5].sum) := by
  refine C2_button_timer.2.2.2.1 [(1 : ℚ) / 5, 1 / 5] ?_ ?_
  · intro d hd
    fin_cases hd <;> norm_num
  · norm_num

/-! ## Claims about the score -/

/-- C4: starting from the zeroed score, for every sequence of game
outcomes the high score always equals the maximum value the current
score ever took (the starting value included) and never decreases when
a further outcome is processed; `update_score` on `Success` sets the
current score to `current + 1` and the high score to `max high (current
+ 1)`, and on `Failure` zeroes the current score leaving the high score
unchanged. -/
theorem C4_score_tracker :
    (∀ evs : List SimonEvent,
        (runScore ⟨0, 0⟩ evs).high = maxObserved ⟨0, 0⟩ evs) ∧
    (∀ (evs : List SimonEvent) (ev : SimonEvent),
        (runScore ⟨0, 0⟩ evs).high ≤ (runScore ⟨0, 0⟩ (evs ++ [ev])).high) ∧
    (∀ s : Score, update_score .Success s =
        { current := s.current + 1, high := max s.high (s.current + 1) }) ∧
    (∀ s : Score, update_score .Failure s = { s with current := 0 }) := by
  refine ⟨?_, ?_, ?_, fun s => rfl⟩
  · intro evs
    have h := runScore_high evs ⟨0, 0⟩ (le_refl 0)
    simpa using h
  · intro evs ev
    have hstep : runScore ⟨0, 0⟩ (evs ++ [ev]) =
        update_score ev (runScore ⟨0, 0⟩ evs) := by
      simp [runScore]
    rw [hstep]
    exact update_score_high_mono ev _
  · intro s
    simp only [update_score, Score.mk.injEq, true_and]
    split <;> omega

/-! ## Claims about the random draw -/

/-- C7: the `Distribution<Button>` impl maps the uniformly distributed
source values 0, 1, 2, 3 of `gen_range(0..=3)` to the four button
identities bijectively — every button is produced by exactly one source
value — and `update_pattern` appends exactly the drawn button. -/
theorem C7_uniform_sample :
    (∀ btn : Button, ∃! n : Fin 4, sampleButton n.val = btn) ∧
    (∀ (p : List Button) (n : Nat),
        update_pattern (sampleButton n) p = p ++ [sampleButton n]) := by
  constructor
  · intro btn
    cases btn
    · exact ⟨0, by decide, by decide⟩
    · exact ⟨1, by decide, by decide⟩
    · exact ⟨2, by decide, by decide⟩
    · exact ⟨3, by decide, by decide⟩
  · intro p n
    rfl

/-! ## Claims about input validation and the game step -/

/-- C1: during AwaitInput (MonkeyDo), a press of button `b` with the
validation cursor in bounds is classified by `validate_buttons` as:
`Failure` (Mistake) when `b` differs from the pattern entry at the
cursor; `Success` (Complete) when it matches and the cursor sits at the
last index of the pattern; `Next` (Continue) when it matches at a
non-last index, in which case the game step advances the cursor by
one. -/
theorem C1_validate_press (s : GameState) (b : Button)
    (hph : s.phase = .MonkeyDo) (hcr : s.crashed = false)
    (hp : s.progress < s.pattern.length) :
    (b ≠ s.pattern[s.progress] →
        validate_buttons s.pattern s.progress b = some .Failure) ∧
    (b = s.pattern[s.progress] → s.progress = s.pattern.length - 1 →
        validate_buttons s.pattern s.progress b = some .Success) ∧
    (b = s.pattern[s.progress] → s.progress ≠ s.pattern.length - 1 →
        validate_buttons s.pattern s.progress b = some .Next ∧
        (step s (.press b)).progress = s.progress + 1) := by
  obtain ⟨ph, pat, prog, sc, sw, cr⟩ := s
  dsimp only at hph hcr hp ⊢
  subst hph
  subst hcr
  have hget : pat[prog]? = some pat[prog] := List.getElem?_eq_getElem hp
  refine ⟨?_, ?_, ?_⟩
  · intro hne
    simp [validate_buttons, hget, hne]
  · intro heq hlast
    subst hlast
    simp [validate_buttons, hget, heq]
  · intro heq hlast
    constructor
    · simp [validate_buttons, hget, heq, hlast]
    · simp [step, validate_buttons, hget, heq, hlast, game_event_handler]

/-- C1 witness: with pattern [Red, Green] and cursor 0, pressing Red is
classified Continue and the cursor advances to 1. -/
theorem C1_witness :
    validate_buttons [Button.Red, Button.Green] 0 Button.Red =
      some SimonEvent.Next ∧
    (step { phase := SimonState.MonkeyDo, pattern := [Button.Red, Button.Green],
            progress := 0, score := { current := 0, high := 0 },
            stateSwitch := false, crashed := false }
        (Label.press Button.Red)).progress = 0 + 1 := by
  have h := C1_validate_press
      { phase := SimonState.MonkeyDo, pattern := [Button.Red, Button.Green],
        progress := 0, score := { current := 0, high := 0 },
        stateSwitch := false, crashed := false }
      Button.Red rfl rfl (by decide)
  exact h.2.2 (by decide) (by decide)

/-- C3: processing a press classified as Mistake (`Failure`) during
AwaitInput leaves the pattern empty, the cursor at 0 and the current
score at 0, whatever they were before, and does not change the high
score. -/
theorem C3_mistake_reset (s : GameState) (b : Button)
    (hph : s.phase = .MonkeyDo) (hcr : s.crashed = false)
    (hm : validate_buttons s.pattern s.progress b = some .Failure) :
    (step s (.press b)).pattern = [] ∧
    (step s (.press b)).progress = 0 ∧
    (step s (.press b)).score.current = 0 ∧
    (step s (.press b)).score.high = s.score.high := by
  obtain ⟨ph, pat, prog, sc, sw, cr⟩ := s
  dsimp only at hph hcr hm ⊢
  subst hph
  subst hcr
  simp [step, hm, game_event_handler, update_score]

/-- C3 witness: pattern [Red], cursor 0, score {current 3, high 5}:
pressing Green is a mismatch; afterwards the pattern is empty, the
cursor and current score are 0, and the high score is still 5. -/
theorem C3_witness :
    (step { phase := SimonState.MonkeyDo, pattern := [Button.Red], progress := 0,
            score := { current := 3, high := 5 }, stateSwitch := false,
            crashed := false } (Label.press Button.Green)).pattern = [] ∧
    (step { phase := SimonState.MonkeyDo, pattern := [Button.Red], progress := 0,
            score := { current := 3, high := 5 }, stateSwitch := false,
            crashed := false } (Label.press Button.Green)).progress = 0 ∧
    (step { phase := SimonState.MonkeyDo, pattern := [Button.Red], progress := 0,
            score := { current := 3, high := 5 }, stateSwitch := false,
            crashed := false } (Label.press Button.Green)).score.current = 0 ∧
    (step { phase := SimonState.MonkeyDo, pattern := [Button.Red], progress := 0,
            score := { current := 3, high := 5 }, stateSwitch := false,
            crashed := false } (Label.press Button.Green)).score.high = 5 := by
  have h := C3_mistake_reset
      { phase := SimonState.MonkeyDo, pattern := [Button.Red], progress := 0,
        score := { current := 3, high := 5 }, stateSwitch := false,
        crashed := false }
      Button.Green rfl rfl (by decide)
  exact ⟨h.1, h.2.1, h.2.2.1, h.2.2.2⟩

/-- C5: during ShowPattern (MonkeySee), a scheduled reveal tick with a
button present at the reveal cursor emits the light notification for
that button and advances the cursor by one, leaving phase and pattern
untouched; with no button present it resets the cursor to 0 and
switches the phase to AwaitInput (MonkeyDo), leaving the pattern
untouched.  Entering ShowPattern — at startup and on the fixed-timestep
tick that consumes the `StateSwitch` resource — appends exactly one
(random) button to the pattern before any reveal tick runs. -/
theorem C5_show_pattern (s : GameState) (b : Button)
    (hcr : s.crashed = false) :
    (s.phase = .MonkeySee →
       (∀ btn, s.pattern[s.progress]? = some btn →
          (show_button s.pattern s.progress).2.1 = some (ButtonEvent.Lit btn) ∧
          (step s (.tick b)).progress = s.progress + 1 ∧
          (step s (.tick b)).phase = .MonkeySee ∧
          (step s (.tick b)).pattern = s.pattern) ∧
       (s.pattern[s.progress]? = none →
          (step s (.tick b)).progress = 0 ∧
          (step s (.tick b)).phase = .MonkeyDo ∧
          (step s (.tick b)).pattern = s.pattern)) ∧
    (s.phase = .MonkeyDo → s.stateSwitch = true →
       (step s (.tick b)).pattern = s.pattern ++ [b] ∧
       (step s (.tick b)).phase = .MonkeySee) ∧
    (init b).pattern = [b] := by
  obtain ⟨ph, pat, prog, sc, sw, cr⟩ := s
  dsimp only at hcr ⊢
  subst hcr
  refine ⟨?_, ?_, rfl⟩
  · intro hph
    subst hph
    constructor
    · intro btn hbtn
      simp [step, show_button, hbtn]
    · intro hnone
      simp [step, show_button, hnone]
  · intro hph hsw
    subst hph
    subst hsw
    simp [step, enterMonkeySee, update_pattern]

/-- C5 witness: in MonkeySee with pattern [Red] and cursor 0, a tick
emits the light notification for Red and advances the cursor to 1. -/
theorem C5_witness :
    (show_button [Button.Red] 0).2.1 = some (ButtonEvent.Lit Button.Red) ∧
    (step { phase := SimonState.MonkeySee, pattern := [Button.Red], progress := 0,
            score := { current := 0, high := 0 }, stateSwitch := false,
            crashed := false } (Label.tick Button.Green)).progress = 0 + 1 := by
  have h := C5_show_pattern
      { phase := SimonState.MonkeySee, pattern := [Button.Red], progress := 0,
        score := { current := 0, high := 0 }, stateSwitch := false,
        crashed := false }
      Button.Green rfl
  have h1 := (h.1 rfl).1 Button.Red rfl
  exact ⟨h1.1, h1.2.1⟩

/-- C8: `update_pattern` (the body of `append_random`) grows the pattern
by exactly one and leaves every previously stored element unchanged at
its index; and every step of the game either leaves the pattern
unchanged, appends exactly one button to it, or clears it to empty — no
operation reorders it or truncates it to any other length. -/
theorem C8_pattern_append_only :
    (∀ (p : List Button) (b : Button),
        (update_pattern b p).length = p.length + 1 ∧
        ∀ i, i < p.length → (update_pattern b p)[i]? = p[i]?) ∧
    (∀ (s : GameState) (l : Label),
        (step s l).pattern = s.pattern ∨
        (∃ b, (step s l).pattern = s.pattern ++ [b]) ∨
        (step s l).pattern = []) := by
  constructor
  · intro p b
    constructor
    · simp [update_pattern]
    · intro i hi
      simp [update_pattern, List.getElem?_append_left hi]
  · intro s l
    obtain ⟨ph, pat, prog, sc, sw, cr⟩ := s
    cases cr with
    | true => exact Or.inl rfl
    | false =>
        cases l with
        | tick b =>
            cases ph with
            | MonkeySee =>
                cases h : pat[prog]? with
                | some val => exact Or.inl (by simp [step, show_button, h])
                | none => exact Or.inl (by simp [step, show_button, h])
            | MonkeyDo =>
                cases sw with
                | true =>
                    exact Or.inr (Or.inl ⟨b,
                      by simp [step, enterMonkeySee, update_pattern]⟩)
                | false => exact Or.inl (by simp [step])
        | press b =>
            cases ph with
            | MonkeySee => exact Or.inl rfl
            | MonkeyDo =>
                cases hv : validate_buttons pat prog b with
                | none => exact Or.inl (by simp [step, hv])
                | some ev =>
                    cases ev with
                    | Success =>
                        exact Or.inl (by simp [step, hv, game_event_handler])
                    | Next =>
                        exact Or.inl (by simp [step, hv, game_event_handler])
                    | Failure =>
                        exact Or.inr (Or.inr
                          (by simp [step, hv, game_event_handler]))

/-- C8 witness: appending Green to [Red] yields length 2 and keeps the
element at index 0. -/
theorem C8_witness :
    (update_pattern Button.Green [Button.Red]).length = [Button.Red].length + 1 ∧
    (update_pattern Button.Green [Button.Red])[0]? = [Button.Red][0]? := by
  have h := C8_pattern_append_only
  exact ⟨(h.1 [Button.Red] Button.Green).1,
         (h.1 [Button.Red] Button.Green).2 0 (by decide)⟩

/-- C9 counterexample: with pattern [Red] and cursor 5 — where advancing
takes the cursor past the pattern length — the code's `Next` handling in
`game_event_handler` produces cursor 6 and signals no error of any
kind, while the spec-modelled `advance_spec` fails with OutOfRange. -/
theorem C9_counterexample :
    game_event_handler .Next [Button.Red] 5 false = ([Button.Red], 6, false) ∧
    [Button.Red].length < 6 ∧
    advance_spec 5 [Button.Red].length = none := by
  decide

/-- C9 (amended): on `Next`, `game_event_handler` increments Progress by
one unconditionally — there is no `OutOfRange` failure, no debug
assertion and no release-mode clamp; an out-of-range cursor is carried
silently in the game state and only surfaces later as the out-of-bounds
indexing panic in `validate_buttons`. -/
theorem C9_next_unchecked :
    (∀ (pat : List Button) (prog : Nat) (sw : Bool),
        game_event_handler .Next pat prog sw = (pat, prog + 1, sw)) ∧
    (∀ (pat : List Button) (prog : Nat) (b : Button), pat.length ≤ prog →
        validate_buttons pat prog b = none) := by
  constructor
  · intro pat prog sw
    rfl
  · intro pat prog b h
    have hnone : pat[prog]? = none := by
      simp [List.getElem?_eq_none_iff, h]
    simp [validate_buttons, hnone]

/-- C9 witness: the `Next` handling at pattern [Red] and cursor 5, and
the panic branch of `validate_buttons` at the resulting cursor 6. -/
theorem C9_witness :
    game_event_handler .Next [Button.Red] 5 false =
      ([Button.Red], 5 + 1, false) ∧
    validate_buttons [Button.Red] 6 Button.Red = none := by
  exact ⟨C9_next_unchecked.1 [Button.Red] 5 false,
         C9_next_unchecked.2 [Button.Red] 6 Button.Red (by decide)⟩

/-- C6: the code violates the claimed invariant.  Concrete run: startup
enters MonkeySee and appends Red; one scheduled tick reveals Red; the
next tick finds the cursor exhausted and switches to AwaitInput
(MonkeyDo); the player presses Green — a mismatch, so the pattern is
emptied — but the phase stays MonkeyDo until the next fixed-timestep
tick consumes the `StateSwitch` resource.  The resulting reachable
state is in AwaitInput with an empty pattern, and every further press
in it reaches the unguarded indexing (`validate_buttons` returns
`none`, the panic branch). -/
theorem C6_empty_pattern_in_monkeydo :
    (run (init .Red) [.tick .Red, .tick .Red, .press .Green]).phase =
      .MonkeyDo ∧
    (run (init .Red) [.tick .Red, .tick .Red, .press .Green]).pattern = [] ∧
    ∀ b : Button,
      validate_buttons
        (run (init .Red) [.tick .Red, .tick .Red, .press .Green]).pattern
        (run (init .Red) [.tick .Red, .tick .Red, .press .Green]).progress
        b = none := by
  decide

/-- C10: there is a reachable state in the AwaitInput phase (MonkeyDo)
with an empty pattern — reached by a press arriving after a Mistake has
emptied the pattern but before the fixed-timestep tick switches the
phase back to ShowPattern — in which processing any press event indexes
the pattern out of bounds (`validate_buttons` hits the panic branch)
and the step crashes. -/
theorem C10_press_can_panic :
    ∃ s : GameState, Reachable s ∧ s.phase = .MonkeyDo ∧ s.pattern = [] ∧
      ∀ b : Button, validate_buttons s.pattern s.progress b = none ∧
        (step s (.press b)).crashed = true := by
  refine ⟨run (init .Red) [.tick .Red, .tick .Red, .press .Green],
    ⟨.Red, [.tick .Red, .tick .Red, .press .Green], rfl⟩, ?_, ?_, ?_⟩
  · decide
  · decide
  · decide

end Simon
